import Mathlib

/-!
Shallow embedding of the HMC_T1 data-acquisition server (`daq_server.py`)
and of the process-controller calibration math (`hmc_master.py`).

Python floats are modelled as rationals (`ℚ`); the claims under study are
order-theoretic and algebraic, never about rounding.  Sample-ring records
are modelled exactly as the source stores them: `bufidx` is a list of raw
index tuples `[recno, wavetime]` (a `List ℚ` of unconstrained length, so
that the source's defensive handling of malformed tuples is representable)
and `bufadc` is the parallel list of channel-value tuples.
-/

namespace HMC

/-- `bufidx[i][1]` access: the timestamp field of a raw index tuple
(default `0` where Python would raise `IndexError`; the claims'
hypotheses keep us inside the well-formed domain). -/
def tOf (r : List ℚ) : ℚ := r.getD 1 0

/-- `bufidx[i][0]` access: the sequence-number field of a raw index tuple. -/
def seqOf (r : List ℚ) : ℚ := r.getD 0 0

/-- Timestamp of record `i` of a raw buffer. -/
def tAt (buf : List (List ℚ)) (i : ℕ) : ℚ := tOf (buf.getD i [])

/-- Sequence number of record `i` of a raw buffer. -/
def seqAt (buf : List (List ℚ)) (i : ℕ) : ℚ := seqOf (buf.getD i [])

/-- Channel `s` of record `i` of the value buffer (`bufadc[i][s]`). -/
def vAt (buf : List (List ℚ)) (i s : ℕ) : ℚ := (buf.getD i []).getD s 0

/-- Well-formedness of `bufidx`: every index tuple has at least the
`[recno, wavetime]` fields (tuple length ≥ 2). -/
def WF (buf : List (List ℚ)) : Prop := ∀ r ∈ buf, 2 ≤ r.length

instance : DecidablePred WF := fun buf =>
  decidable_of_iff (∀ r ∈ buf, 2 ≤ r.length) Iff.rfl

/-- Python's index normalisation for slices: negative indices count from
the end, and the result is clamped into `[0, n]`. -/
def pyIdx (n : ℕ) (i : ℤ) : ℕ := (min (max (if i < 0 then i + n else i) 0) (n : ℤ)).toNat

/-- Python slice `l[a:b]` (step 1), with full negative-index semantics. -/
def pySlice (l : List α) (a b : ℤ) : List α :=
  (l.take (pyIdx l.length b)).drop (pyIdx l.length a)

/-- Result of the linear scan inside `find_time_index`:
the scan either returns an index, falls through the `for` loop
(Python's `for … else` arm), or hits an `IndexError`. -/
inductive ScanResult where
  | found (p : ℕ)
  | fell (buf : List (List ℚ))
  | idxErr
deriving DecidableEq

/-- The `for p in range(len(bufidx))` loop body of `find_time_index`
(`daq_server.py:1063-1071`), including the orphan-tuple `pop(p)` (which
mutates the list under the iteration, so an index may run past the end:
that raises `IndexError`, modelled by `.idxErr`).  `fuel` is the length
captured by `range()` at loop entry. -/
def scanGo (t : ℚ) : ℕ → List (List ℚ) → ℕ → ScanResult
  | 0, buf, _ => .fell buf
  | fuel + 1, buf, p =>
      if h : p < buf.length then
        let r := buf.get ⟨p, h⟩
        if 1 < r.length then
          if t ≤ tOf r then .found p
          else scanGo t fuel buf (p + 1)
        else scanGo t fuel (buf.eraseIdx p) (p + 1)
      else .idxErr

/-- `find_time_index(t)` (`daq_server.py:1055-1077`).  Strips malformed
tuples from the head and tail, then either clamps to the extremes or
scans for the first index whose timestamp is `≥ t`.  An `IndexError`
anywhere (in particular on an empty buffer) is caught and mapped to `0`. -/
def findTimeIndex (buf : List (List ℚ)) (t : ℚ) : ℕ :=
  let b1 := buf.dropWhile (fun r => r.length < 2)
  let b2 := (b1.reverse.dropWhile (fun r => r.length < 2)).reverse
  if b2.isEmpty then 0
  else
    let t0 := tOf b2.headI
    let tl := tOf (b2.getLastD [])
    if t0 ≤ t ∧ t ≤ tl then
      match scanGo t b2.length b2 0 with
      | .found p => p
      | .fell b3 => b3.length - 1
      | .idxErr => 0
    else if t < t0 then 0
    else b2.length - 1

/-- Insert into a sorted list (ascending). -/
def insertSorted (a : ℚ) : List ℚ → List ℚ
  | [] => [a]
  | b :: t => if a ≤ b then a :: b :: t else b :: insertSorted a t

/-- Ascending sort (insertion sort); value-correct model of the sort
underlying `np.median`. -/
def sortQ : List ℚ → List ℚ
  | [] => []
  | a :: t => insertSorted a (sortQ t)

/-- `np.median` on a non-empty 1-D array: middle element of the sorted
data for odd length, average of the two central elements for even length
(`0` on the empty array, which the claims never reach). -/
def npMedian (l : List ℚ) : ℚ :=
  let s := sortQ l
  let n := l.length
  if n = 0 then 0
  else if n % 2 = 1 then s.getD (n / 2) 0
  else (s.getD (n / 2 - 1) 0 + s.getD (n / 2) 0) / 2

/-- `median_avg(s, p1, period)` (`daq_server.py:1079-1088`): median of
channel `s` over the slice `bufadc[p0 : p1+1]` where
`p0 = find_time_index(bufidx[p1][1] - period)`.  (The source's
`p0 == -1` check is dead: `find_time_index` never returns `-1`.) -/
def median_avg (bufidx bufadc : List (List ℚ)) (s p1 : ℕ) (period : ℚ) : ℚ :=
  let p0 := findTimeIndex bufidx (tAt bufidx p1 - period)
  let X := (pySlice bufadc p0 (p1 + 1)).map (fun r => r.getD s 0)
  npMedian X

/-- The supervisor's sample ring: the parallel buffers `bufidx` and
`bufadc` of `daq_server.py`. -/
structure RingState where
  bufidx : List (List ℚ)
  bufadc : List (List ℚ)
deriving DecidableEq

/-- One append-with-eviction step of the supervisor loop
(`daq_server.py:1633-1638`): append `[recno, wavetime]` / `record`, then
pop the single oldest record if `bufidx[-1][1] - bufidx[0][1] > bufsize`. -/
def stepAppend (bufsize : ℚ) (s : RingState) (recno wavetime : ℚ)
    (record : List ℚ) : RingState :=
  let bi := s.bufidx ++ [[recno, wavetime]]
  let ba := s.bufadc ++ [record]
  if tOf (bi.getLastD []) - tOf bi.headI > bufsize then ⟨bi.drop 1, ba.drop 1⟩
  else ⟨bi, ba⟩

/-- Ring states reachable from the empty ring by supervisor
append-with-eviction steps. -/
inductive Reachable (bufsize : ℚ) : RingState → Prop where
  | init : Reachable bufsize ⟨[], []⟩
  | step {s : RingState} (recno wavetime : ℚ) (record : List ℚ) :
      Reachable bufsize s →
      Reachable bufsize (stepAppend bufsize s recno wavetime record)

/-- Span of the ring: `bufidx[-1][1] - bufidx[0][1]`. -/
def ringSpan (s : RingState) : ℚ :=
  tAt s.bufidx (s.bufidx.length - 1) - tAt s.bufidx 0

/-- The ring rewrite of the `:CMD:TIME:RST` handler
(`daq_server.py:1219-1221`): `for i in range(len(bufidx)):
bufidx[i][1] -= toffs`.  (`List.set` models the in-place item assignment;
both leave tuples without a field 1 untouched only in the sense that the
claims' well-formedness hypothesis rules that case out.) -/
def cmdTimeRstRing (bufidx : List (List ℚ)) (toffs : ℚ) : List (List ℚ) :=
  bufidx.map (fun r => r.set 1 (tOf r - toffs))

/-- Outcome of the `:CMD:TIME:RST` branch of `cmd_handler`
(`daq_server.py:1208-1222`).  `resp` is the offset value the DAQ worker
returned over the response queue (the worker replies with the previous
`wavetime`, `daq_server.py:952-955`); the handler parses it, subtracts it
from every buffered timestamp under the write lock, leaves `bufadc`
untouched, and sends the worker's value back to the client verbatim. -/
structure TimeRstResult where
  bufidx : List (List ℚ)
  bufadc : List (List ℚ)
  reply : ℚ
deriving DecidableEq

/-- The `:CMD:TIME:RST` handler step (ring effect plus client reply). -/
def cmdTimeRst (bufidx bufadc : List (List ℚ)) (resp : ℚ) : TimeRstResult :=
  ⟨cmdTimeRstRing bufidx resp, bufadc, resp⟩

/-- One unit of data sent to a `:DATA:READ?` client: either one sample
line (carrying the timestamp and the raw channel values that the line
formats) or the trailing literal `OK`. -/
inductive Emit where
  | line (t : ℚ) (vals : List ℚ)
  | ok
deriving DecidableEq

/-- The `:DATA:READ?` branch of `data_handler`
(`daq_server.py:1476-1504`): with no time argument the slice defaults to
`[len-1 : len]` (the newest record); with one time `t0` it is
`[p0 : p0+1]` at `p0 = find_time_index(t0)`; with two times it is
`[find_time_index(t0) : find_time_index(t1)+1]`.  The matching
`bufidx`/`bufadc` pairs are emitted as lines in slice order and the
literal `OK` is sent last. -/
def dataReadEmits (bufidx bufadc : List (List ℚ))
    (args : Option (ℚ × Option ℚ)) : List Emit :=
  let n : ℤ := bufidx.length
  let pq : ℤ × ℤ :=
    match args with
    | none => (n - 1, n)
    | some (t0, none) => ((findTimeIndex bufidx t0 : ℤ), (findTimeIndex bufidx t0 : ℤ) + 1)
    | some (t0, some t1) => ((findTimeIndex bufidx t0 : ℤ), (findTimeIndex bufidx t1 : ℤ) + 1)
  let lines := ((pySlice bufidx pq.1 pq.2).zip (pySlice bufadc pq.1 pq.2)).map
    (fun ir => Emit.line (tOf ir.1) ir.2)
  lines ++ [Emit.ok]

/-- `y[i]` access on a converted-values array. -/
def yAt (y : List ℚ) (i : ℕ) : ℚ := y.getD i 0

/-- Plateau scan of scipy's `_local_maxima_1d`: starting at `k`, advance
while `k < len - 1` and `y[k] == v`. -/
def plateauEnd (y : List ℚ) (v : ℚ) : ℕ → ℕ → ℕ
  | k, 0 => k
  | k, fuel + 1 =>
      if k < y.length - 1 ∧ yAt y k = v then plateauEnd y v (k + 1) fuel else k

/-- Main loop of scipy's `_local_maxima_1d`: a (plateau of) sample(s)
strictly above both neighbours yields the plateau midpoint.  `fuel`
bounds the iteration count (the scan index strictly increases, so
`y.length` fuel is never exhausted). -/
def lmGo (y : List ℚ) : ℕ → ℕ → List ℕ
  | _, 0 => []
  | i, fuel + 1 =>
      if i < y.length - 1 then
        if yAt y (i - 1) < yAt y i then
          let ia := plateauEnd y (yAt y i) (i + 1) y.length
          if yAt y ia < yAt y i then
            (i + (ia - 1)) / 2 :: lmGo y (ia + 1) fuel
          else lmGo y (i + 1) fuel
        else lmGo y (i + 1) fuel
      else []

/-- Local maxima of a 1-D array (scipy `_local_maxima_1d`): indices in
increasing order. -/
def localMaxima (y : List ℚ) : List ℕ := lmGo y 1 y.length

/-- scipy `find_peaks` height filter: keep peaks with `y[p] ≥ height`. -/
def heightFilter (y : List ℚ) (height : ℚ) (peaks : List ℕ) : List ℕ :=
  peaks.filter (fun p => height ≤ yAt y p)

/-- Inner `while` of scipy's `_select_by_peak_distance`: walking left
(`step = -1`) or right (`step = 1`) from `j`, clear `keep` while the
neighbour is closer than `dist`. -/
def sbdClear (peaks : List ℕ) (dist : ℤ) (j : ℕ) (left : Bool) :
    ℕ → ℕ → List Bool → List Bool
  | _, 0, keep => keep
  | k, fuel + 1, keep =>
      if k < peaks.length ∧
          (if left then (peaks.getD j 0 : ℤ) - (peaks.getD k 0 : ℤ) < dist
           else (peaks.getD k 0 : ℤ) - (peaks.getD j 0 : ℤ) < dist) then
        sbdClear peaks dist j left (if left then k - 1 else k + 1) fuel
          (keep.set k false)
      else keep

/-- Outer loop of `_select_by_peak_distance`: visit peaks from highest to
lowest priority (`order` is the ascending argsort of the priorities) and
clear every still-kept neighbour closer than `dist` on either side. -/
def sbdGo (peaks : List ℕ) (order : List ℕ) (dist : ℤ) :
    ℕ → List Bool → List Bool
  | 0, keep => keep
  | i + 1, keep =>
      let j := order.getD i 0
      if keep.getD j false then
        let keep1 := if j = 0 then keep
          else sbdClear peaks dist j true (j - 1) peaks.length keep
        sbdGo peaks order dist i
          (sbdClear peaks dist j false (j + 1) peaks.length keep1)
      else sbdGo peaks order dist i keep

/-- scipy `_select_by_peak_distance` with `priority = y[peaks]`: drop
every peak closer than `⌈dist⌉` to a higher-priority kept peak.
(`np.argsort` is modelled as a stable ascending sort of the indices; the
claims never exercise priority ties inside one distance window.) -/
def selectByDistance (y : List ℚ) (dist : ℚ) (peaks : List ℕ) : List ℕ :=
  let m := peaks.length
  let order := (List.range m).mergeSort
    (fun a b => yAt y (peaks.getD a 0) ≤ yAt y (peaks.getD b 0))
  let keep := sbdGo peaks order ⌈dist⌉ m (List.replicate m true)
  ((peaks.zip keep).filter (fun pk => pk.2)).map (fun pk => pk.1)

/-- scipy `find_peaks(y, height, distance)`: local maxima, then the
height filter, then the distance filter.  `distance < 1` raises
`ValueError` in scipy; the caller models that separately. -/
def findPeaks (y : List ℚ) (height dist : ℚ) : List ℕ :=
  selectByDistance y dist (heightFilter y height (localMaxima y))

/-- Reply of the `:CMD:PEAK?` branch: either `"<pktim>,<pkval>"` or an
error string (the branch's `"ERR"` default and its `"ERR: …"` exception
path are both modelled by `.err`). -/
inductive PeakReply where
  | peak (pktim pkval : ℚ)
  | err
deriving DecidableEq

/-- The running-maximum scan over the found peaks
(`daq_server.py:1320-1327`): track the best `(pktim, pkval)` and stop as
soon as a later peak drops more than `1000e-6` below it. -/
def peakScan (x y : List ℚ) : List ℕ → ℚ → ℚ → ℚ × ℚ
  | [], pktim, pkval => (pktim, pkval)
  | i :: rest, pktim, pkval =>
      if yAt y i > pkval then peakScan x y rest (x.getD i 0) (yAt y i)
      else if pkval - yAt y i > 1000 / 1000000 then (pktim, pkval)
      else peakScan x y rest pktim pkval

/-- Decision tail of the `:CMD:PEAK?` branch after the arrays and the
thresholds are built (`daq_server.py:1318-1330`): run `find_peaks`, the
running-maximum scan over the found peaks, and reply `pktim,pkval` only
when the scan's maximum exceeds the height threshold. -/
def peakResolve (x y : List ℚ) (b0 dist : ℚ) : PeakReply :=
  if (findPeaks y b0 dist).length > 0 then
    if (peakScan x y (findPeaks y b0 dist) 0 (-(1000000 : ℚ))).2 > b0 then
      .peak (peakScan x y (findPeaks y b0 dist) 0 (-(1000000 : ℚ))).1
        (peakScan x y (findPeaks y b0 dist) 0 (-(1000000 : ℚ))).2
    else .err
  else .err

/-- The `:CMD:PEAK?` computation once the window indices `[p0, p1]` are
fixed (`daq_server.py:1314-1330`): height threshold from the 1-second
median at `p0` plus `1e-3`, converted arrays over the slice, spacing
`(p1 - p0)/2` (a spacing `< 1` raises scipy's `ValueError` on
`distance`, caught as `ERR`). -/
def peakReplyAt (bufidx bufadc : List (List ℚ)) (val : ℚ → ℚ) (s : ℕ)
    (p0 p1 : ℕ) : PeakReply :=
  if ((p1 : ℚ) - (p0 : ℚ)) / 2 < 1 then .err
  else
    peakResolve ((pySlice bufidx p0 (p1 + 1)).map tOf)
      ((pySlice bufadc p0 (p1 + 1)).map (fun r => val (r.getD s 0)))
      (val (median_avg bufidx bufadc s p0 1) + 1 / 1000)
      (((p1 : ℚ) - (p0 : ℚ)) / 2)

/-- The `:CMD:PEAK? <label>, <t0>, <interval>` branch of `cmd_handler`
(`daq_server.py:1294-1334`) for a known label whose conversion function
is `val` and whose channel index is `s`.  An empty ring raises
`IndexError` (caught, `.err`); the window `[t0, t0+interval]` is clamped
to the ring before the index lookups. -/
def cmdPeak (bufidx bufadc : List (List ℚ)) (val : ℚ → ℚ) (s : ℕ)
    (t0 interval : ℚ) : PeakReply :=
  if bufidx.isEmpty then .err
  else
    let t1 := t0 + interval
    let t0c := if t0 < tAt bufidx 0 then tAt bufidx 0 else t0
    let t1c := if t1 > tAt bufidx (bufidx.length - 1) then tAt bufidx (bufidx.length - 1) else t1
    peakReplyAt bufidx bufadc val s (findTimeIndex bufidx t0c) (findTimeIndex bufidx t1c)

/-- The `:CMD:PEAK?` pipeline as §4.3 of the specification words it: the
window `[t0, t0+interval]` clamped to the ring, `p0`/`p1` the time-index
lookups of the clamped endpoints, and the same peak decision tail. -/
def peakSpec (bufidx bufadc : List (List ℚ)) (val : ℚ → ℚ) (s : ℕ)
    (t0 interval : ℚ) : PeakReply :=
  if bufidx.isEmpty then .err
  else
    peakReplyAt bufidx bufadc val s
      (findTimeIndex bufidx (max t0 (tAt bufidx 0)))
      (findTimeIndex bufidx (min (t0 + interval) (tAt bufidx (bufidx.length - 1))))

/-- `np.polyval(p, x)`: Horner evaluation, highest-degree coefficient
first. -/
def polyval (c : List ℚ) (x : ℚ) : ℚ := c.foldl (fun acc a => acc * x + a) 0

/-- `np.polyfit(xs, ys, deg=1)` on three points, modelled by its
documented least-squares contract: the closed-form solution `[m, c]` of
the normal equations (valid whenever the abscissae are not all equal,
which makes `polyfit1D ≠ 0`). -/
def polyfit1D (x0 x1 x2 : ℚ) : ℚ :=
  3 * (x0 ^ 2 + x1 ^ 2 + x2 ^ 2) - (x0 + x1 + x2) ^ 2

def polyfit1 (x0 x1 x2 y0 y1 y2 : ℚ) : List ℚ :=
  let D := polyfit1D x0 x1 x2
  let m := (3 * (x0 * y0 + x1 * y1 + x2 * y2) - (x0 + x1 + x2) * (y0 + y1 + y2)) / D
  let c := ((x0 ^ 2 + x1 ^ 2 + x2 ^ 2) * (y0 + y1 + y2)
      - (x0 + x1 + x2) * (x0 * y0 + x1 * y1 + x2 * y2)) / D
  [m, c]

/-- `np.polyfit(xs, ys, deg=2)` on three points, modelled by its
documented least-squares contract: with pairwise distinct abscissae the
residual of the interpolating quadratic is zero, so the fit is the
Lagrange interpolant `[a, b, c]`. -/
def polyfit2 (x0 x1 x2 y0 y1 y2 : ℚ) : List ℚ :=
  let l0 := (x0 - x1) * (x0 - x2)
  let l1 := (x1 - x0) * (x1 - x2)
  let l2 := (x2 - x0) * (x2 - x1)
  [y0 / l0 + y1 / l1 + y2 / l2,
   -(y0 * (x1 + x2) / l0 + y1 * (x0 + x2) / l1 + y2 * (x0 + x1) / l2),
   y0 * (x1 * x2) / l0 + y1 * (x0 * x2) / l1 + y2 * (x0 * x1) / l2]

/-- The calibration dictionary keys used by `compute_calib_curves`
(`hmc_master.py:1080-1094`). -/
structure Calib where
  cell_h2_50ppm : ℚ
  cell_h2_100ppm : ℚ
  tgs_h2_50ppm : ℚ
  tgs_h2_100ppm : ℚ
  tgs_ch4_50ppm : ℚ
  tgs_ch4_100ppm : ℚ
  tgs_comp : ℚ
deriving DecidableEq

/-- `z_cell_adc2h2`: degree-1 fit of ppm against cell-ADC readings. -/
def z_cell_adc2h2 (cal : Calib) : List ℚ :=
  polyfit1 0 cal.cell_h2_50ppm cal.cell_h2_100ppm 0 50 100

/-- `z_tgs_h2_2adc`: degree-2 fit of compensated TGS-ADC against H₂ ppm. -/
def z_tgs_h2_2adc (cal : Calib) : List ℚ :=
  polyfit2 0 50 100 0 (cal.tgs_h2_50ppm + cal.tgs_comp) (cal.tgs_h2_100ppm + cal.tgs_comp)

/-- `z_tgs_adc2ch4`: degree-2 fit of CH₄ ppm against compensated TGS-ADC. -/
def z_tgs_adc2ch4 (cal : Calib) : List ℚ :=
  polyfit2 0 (cal.tgs_ch4_50ppm + cal.tgs_comp) (cal.tgs_ch4_100ppm + cal.tgs_comp) 0 50 100

/-- `calc_ppm(h2adc, ch4adc)` (`hmc_master.py:1096-1101`). -/
def calc_ppm (cal : Calib) (h2adc ch4adc : ℚ) : ℚ × ℚ :=
  let h2ppm := polyval (z_cell_adc2h2 cal) h2adc
  let h2adj := polyval (z_tgs_h2_2adc cal) h2ppm
  let tgs_adjusted := (ch4adc + 20 / 1000) - h2adj
  (h2ppm, polyval (z_tgs_adc2ch4 cal) tgs_adjusted)

/-- Outcome of one accepted command-port connection at the
slot-allocation step of `cmd_handler` (`daq_server.py:1133-1138` and the
rejection arm at `daq_server.py:1365-1370`).  `sent` is everything the
handler writes to the client socket on the rejection path before the
socket is closed. -/
structure AcceptOutcome where
  accepted : Bool
  slot : Option ℕ
  sent : List String
  loggedError : Bool
  closed : Bool
deriving DecidableEq

/-- The slot-allocation step: with a free slot the handler binds the last
entry of `free_Qn` (`free_Qn.pop()`) and enters its serve loop; with no
free slot it logs `"… out of queue resources …"` on the error queue and
closes the socket, sending nothing. -/
def cmdHandlerAccept (freeQn : List ℕ) : AcceptOutcome :=
  if freeQn.length ≠ 0 then
    { accepted := true, slot := some (freeQn.getLastD 0), sent := [],
      loggedError := false, closed := false }
  else
    { accepted := false, slot := none, sent := [],
      loggedError := true, closed := true }

/-! ### Helper lemmas about `findTimeIndex` -/

lemma tAt_of_lt {buf : List (List ℚ)} {i : ℕ} (h : i < buf.length) :
    tAt buf i = tOf buf[i] := by
  simp [tAt, List.getD_eq_getElem?_getD, List.getElem?_eq_getElem h]

lemma headI_eq_getD {buf : List (List ℚ)} (h : buf ≠ []) :
    buf.headI = buf.getD 0 [] := by
  cases buf with
  | nil => exact absurd rfl h
  | cons a t => rfl

lemma getLastD_eq_getD (buf : List (List ℚ)) :
    buf.getLastD [] = buf.getD (buf.length - 1) [] := by
  rw [List.getLastD_eq_getLast?, List.getLast?_eq_getElem?]
  simp [List.getD_eq_getElem?_getD]

lemma dropWhile_wf {buf : List (List ℚ)} (hwf : ∀ r ∈ buf, 2 ≤ r.length) :
    buf.dropWhile (fun r => r.length < 2) = buf := by
  induction buf with
  | nil => rfl
  | cons a t ih =>
      have ha : ¬ a.length < 2 := by
        have := hwf a (by simp)
        omega
      rw [List.dropWhile_cons]
      simp [ha, ih (fun r hr => hwf r (by simp [hr]))]

lemma strip_wf {buf : List (List ℚ)} (hwf : WF buf) :
    ((buf.dropWhile (fun r => r.length < 2)).reverse.dropWhile
      (fun r => r.length < 2)).reverse = buf := by
  rw [dropWhile_wf hwf, dropWhile_wf (fun r hr => hwf r (List.mem_reverse.mp hr)),
    List.reverse_reverse]

lemma scanGo_found {t : ℚ} {buf : List (List ℚ)} (hwf : WF buf) :
    ∀ fuel p j, p + fuel = buf.length → p ≤ j → j < buf.length →
      t ≤ tAt buf j → (∀ k, p ≤ k → k < j → tAt buf k < t) →
      scanGo t fuel buf p = .found j := by
  intro fuel
  induction fuel with
  | zero =>
      intro p j h1 h2 h3 _ _
      omega
  | succ f ih =>
      intro p j h1 h2 h3 ht hmin
      have hp : p < buf.length := by omega
      have hr : 1 < (buf.get ⟨p, hp⟩).length := by
        have := hwf (buf.get ⟨p, hp⟩) (List.get_mem buf p hp)
        omega
      have htp : tAt buf p = tOf (buf.get ⟨p, hp⟩) := by
        rw [tAt_of_lt hp]
        rfl
      rw [scanGo, dif_pos hp]
      simp only [if_pos hr]
      by_cases hc : t ≤ tOf (buf.get ⟨p, hp⟩)
      · rw [if_pos hc]
        have : p = j := by
          by_contra hne
          have hpj : p < j := by omega
          have := hmin p le_rfl hpj
          rw [htp] at this
          exact absurd hc (not_le.mpr this)
        rw [this]
      · rw [if_neg hc]
        have hpj : p < j := by
          rcases Nat.lt_or_ge p j with h | h
          · exact h
          · have hpe : p = j := by omega
            rw [← hpe, htp] at ht
            exact absurd ht hc
        exact ih (p + 1) j (by omega) (by omega) h3 ht
          (fun k hk1 hk2 => hmin k (by omega) hk2)

lemma length_pos_of_ne {buf : List (List ℚ)} (h : buf ≠ []) : 0 < buf.length :=
  List.length_pos.mpr h

lemma fti_eq_on_wf {buf : List (List ℚ)} (hwf : WF buf) (t : ℚ) :
    findTimeIndex buf t =
      (if buf.isEmpty then 0
       else
        if tOf buf.headI ≤ t ∧ t ≤ tOf (buf.getLastD []) then
          match scanGo t buf.length buf 0 with
          | .found p => p
          | .fell b3 => b3.length - 1
          | .idxErr => 0
        else if t < tOf buf.headI then 0
        else buf.length - 1) := by
  unfold findTimeIndex
  simp only [dropWhile_wf hwf,
    dropWhile_wf (fun r hr => hwf r (List.mem_reverse.mp hr)),
    List.reverse_reverse]

/-- In-range characterisation: for a non-empty well-formed buffer and
`t_first ≤ t ≤ t_last`, `find_time_index` returns the least index whose
timestamp is `≥ t`. -/
lemma fti_range {buf : List (List ℚ)} {t : ℚ} (hwf : WF buf) (hne : buf ≠ [])
    (h0 : tAt buf 0 ≤ t) (h1 : t ≤ tAt buf (buf.length - 1)) :
    findTimeIndex buf t < buf.length ∧ t ≤ tAt buf (findTimeIndex buf t) ∧
      ∀ k < findTimeIndex buf t, tAt buf k < t := by
  have hp : 0 < buf.length := length_pos_of_ne hne
  have hex : ∃ k, t ≤ tAt buf k := ⟨buf.length - 1, h1⟩
  have hhead : tOf buf.headI = tAt buf 0 := by
    rw [headI_eq_getD hne]
    rfl
  have hlast : tOf (buf.getLastD []) = tAt buf (buf.length - 1) := by
    rw [getLastD_eq_getD]
    rfl
  have hemp : buf.isEmpty = false := by
    simp [List.isEmpty_iff, hne]
  have hj := Nat.find_spec hex
  have hjle : Nat.find hex ≤ buf.length - 1 := Nat.find_min' hex h1
  have hscan : scanGo t buf.length buf 0 = .found (Nat.find hex) :=
    scanGo_found hwf buf.length 0 (Nat.find hex) (by omega) (by omega)
      (by omega) hj
      (fun k _ hk => not_le.mp (Nat.find_min hex hk))
  rw [fti_eq_on_wf hwf, hemp]
  rw [if_neg (by simp), hhead, hlast, if_pos ⟨h0, h1⟩, hscan]
  refine ⟨?_, hj, fun k hk => not_le.mp (Nat.find_min hex hk)⟩
  show Nat.find hex < buf.length
  omega

/-- Clamp below: `t` before the oldest timestamp yields index `0`. -/
lemma fti_below {buf : List (List ℚ)} {t : ℚ} (hwf : WF buf) (hne : buf ≠ [])
    (h : t < tAt buf 0) : findTimeIndex buf t = 0 := by
  have hhead : tOf buf.headI = tAt buf 0 := by
    rw [headI_eq_getD hne]
    rfl
  have hemp : buf.isEmpty = false := by
    simp [List.isEmpty_iff, hne]
  rw [fti_eq_on_wf hwf, hemp]
  rw [if_neg (by simp), hhead]
  rw [if_neg (by exact fun hc => absurd hc.1 (not_le.mpr h)), if_pos h]

/-- Clamp above: `t` past the newest timestamp yields the last index. -/
lemma fti_above {buf : List (List ℚ)} {t : ℚ} (hwf : WF buf) (hne : buf ≠ [])
    (h0 : tAt buf 0 ≤ tAt buf (buf.length - 1))
    (h : tAt buf (buf.length - 1) < t) :
    findTimeIndex buf t = buf.length - 1 := by
  have hp : 0 < buf.length := length_pos_of_ne hne
  have hhead : tOf buf.headI = tAt buf 0 := by
    rw [headI_eq_getD hne]
    rfl
  have hlast : tOf (buf.getLastD []) = tAt buf (buf.length - 1) := by
    rw [getLastD_eq_getD]
    rfl
  have hemp : buf.isEmpty = false := by
    simp [List.isEmpty_iff, hne]
  rw [fti_eq_on_wf hwf, hemp]
  rw [if_neg (by simp), hhead, hlast]
  rw [if_neg (by exact fun hc => absurd hc.2 (not_le.mpr h)),
    if_neg (not_lt.mpr (le_trans h0 (le_of_lt h)))]

/-- Uniqueness: any index that is least with timestamp `≥ t` is the
value of `find_time_index`. -/
lemma fti_eq_of {buf : List (List ℚ)} {t : ℚ} (hwf : WF buf) (hne : buf ≠ [])
    (h0 : tAt buf 0 ≤ t) (h1 : t ≤ tAt buf (buf.length - 1)) {j : ℕ}
    (hjlen : j < buf.length) (hjt : t ≤ tAt buf j)
    (hjmin : ∀ k < j, tAt buf k < t) : findTimeIndex buf t = j := by
  obtain ⟨hlen, ht, hmin⟩ := fti_range hwf hne h0 h1
  rcases Nat.lt_trichotomy (findTimeIndex buf t) j with h | h | h
  · exact absurd ht (not_le.mpr (hjmin _ h))
  · exact h
  · exact absurd hjt (not_le.mpr (hmin _ h))

/-! ### Claim theorems C3, C9, C6 -/

/-- C3: for every non-empty ring whose records are well-formed (each
index tuple has at least 2 elements) with non-decreasing timestamps and
every time `t`: if `t_first ≤ t ≤ t_last` then `find_time_index(t)`
returns the smallest index `i` with `ring[i].t ≥ t`; if `t < t_first` it
returns `0`; and if `t > t_last` it returns the last index. -/
theorem c3_find_time_index_clamps (buf : List (List ℚ)) (t : ℚ)
    (hwf : WF buf) (hne : buf ≠ [])
    (hmono : ∀ j < buf.length, ∀ i ≤ j, tAt buf i ≤ tAt buf j) :
    (tAt buf 0 ≤ t → t ≤ tAt buf (buf.length - 1) →
      findTimeIndex buf t < buf.length ∧ t ≤ tAt buf (findTimeIndex buf t) ∧
        ∀ k < findTimeIndex buf t, tAt buf k < t) ∧
    (t < tAt buf 0 → findTimeIndex buf t = 0) ∧
    (tAt buf (buf.length - 1) < t → findTimeIndex buf t = buf.length - 1) := by
  have hp : 0 < buf.length := length_pos_of_ne hne
  exact ⟨fun h0 h1 => fti_range hwf hne h0 h1, fun h => fti_below hwf hne h,
    fun h => fti_above hwf hne
      (hmono (buf.length - 1) (by omega) 0 (by omega)) h⟩

theorem c3_find_time_index_clamps_witness :
    (WF [[0, 1], [1, 2], [2, 4]] ∧ ([[0, 1], [1, 2], [2, 4]] : List (List ℚ)) ≠ [] ∧
      (∀ j < ([[0, 1], [1, 2], [2, 4]] : List (List ℚ)).length, ∀ i ≤ j,
        tAt [[0, 1], [1, 2], [2, 4]] i ≤ tAt [[0, 1], [1, 2], [2, 4]] j)) ∧
    (findTimeIndex [[0, 1], [1, 2], [2, 4]] 3 < ([[0, 1], [1, 2], [2, 4]] : List (List ℚ)).length ∧
      (3 : ℚ) ≤ tAt [[0, 1], [1, 2], [2, 4]] (findTimeIndex [[0, 1], [1, 2], [2, 4]] 3) ∧
      ∀ k < findTimeIndex [[0, 1], [1, 2], [2, 4]] 3, tAt [[0, 1], [1, 2], [2, 4]] k < 3) :=
  ⟨⟨by decide, by decide, by decide⟩,
    (c3_find_time_index_clamps [[0, 1], [1, 2], [2, 4]] 3 (by decide) (by decide)
      (by decide)).1 (by decide) (by decide)⟩

/-- C9: on the empty sample ring, `find_time_index` returns `0` for
every time `t` instead of propagating the `IndexError` it takes on the
empty buffer, so callers reach their own error handling. -/
theorem c9_find_time_index_empty_ring (t : ℚ) : findTimeIndex [] t = 0 := rfl

/-- C6: for every non-empty well-formed ring with strictly increasing
timestamps, every valid end index `p` and every channel `s`,
`median_avg(s, p, 0)` is exactly the raw stored value `bufadc[p][s]`. -/
theorem c6_median_window_zero_is_point_read
    (bufidx bufadc : List (List ℚ)) (s p : ℕ)
    (hwf : WF bufidx) (hlen : bufadc.length = bufidx.length)
    (hp : p < bufidx.length)
    (hmono : ∀ j < bufidx.length, ∀ i < j, tAt bufidx i < tAt bufidx j) :
    median_avg bufidx bufadc s p 0 = vAt bufadc p s := by
  have hne : bufidx ≠ [] := List.ne_nil_of_length_pos (by omega)
  have hsub : tAt bufidx p - 0 = tAt bufidx p := by ring
  have hmle : ∀ i j, i ≤ j → j < bufidx.length → tAt bufidx i ≤ tAt bufidx j := by
    intro i j hij hj
    rcases Nat.lt_or_ge i j with h | h
    · exact le_of_lt (hmono j hj i h)
    · have : i = j := by omega
      rw [this]
  have hfti : findTimeIndex bufidx (tAt bufidx p - 0) = p := by
    rw [hsub]
    exact fti_eq_of hwf hne (hmle 0 p (by omega) hp)
      (hmle p (bufidx.length - 1) (by omega) (by omega)) hp le_rfl
      (fun k hk => hmono p hp k hk)
  have hpn : p < bufadc.length := by omega
  have hslice : pySlice bufadc (p : ℤ) ((p : ℤ) + 1) = [bufadc[p]] := by
    unfold pySlice pyIdx
    have e1 : ¬ ((p : ℤ) < 0) := by omega
    have e2 : ¬ ((p : ℤ) + 1 < 0) := by omega
    rw [if_neg e1, if_neg e2]
    have e3 : (min (max ((p : ℤ) + 1) 0) (bufadc.length : ℤ)).toNat = p + 1 := by omega
    have e4 : (min (max (p : ℤ) 0) (bufadc.length : ℤ)).toNat = p := by omega
    rw [e3, e4]
    rw [show p + 1 = p + 1 from rfl, List.drop_take_succ_eq_cons_getElem _ _ hpn]
  have hX : median_avg bufidx bufadc s p 0
      = npMedian ((pySlice bufadc (p : ℤ) ((p : ℤ) + 1)).map (fun r => r.getD s 0)) := by
    show npMedian ((pySlice bufadc (findTimeIndex bufidx (tAt bufidx p - 0) : ℤ)
      ((p : ℤ) + 1)).map (fun r => r.getD s 0)) = _
    rw [hfti]
  rw [hX, hslice]
  simp only [List.map_cons, List.map_nil]
  have hmed : npMedian [bufadc[p].getD s 0] = bufadc[p].getD s 0 := by
    simp [npMedian, sortQ, insertSorted]
  have hgd : bufadc.getD p [] = bufadc[p] := by
    rw [List.getD_eq_getElem?_getD, List.getElem?_eq_getElem hpn]
    rfl
  rw [hmed, vAt, hgd]

theorem c6_median_window_zero_is_point_read_witness :
    (WF [[0, 0], [1, 1], [2, 2]] ∧
      ([[5], [6], [7]] : List (List ℚ)).length = ([[0, 0], [1, 1], [2, 2]] : List (List ℚ)).length ∧
      1 < ([[0, 0], [1, 1], [2, 2]] : List (List ℚ)).length ∧
      (∀ j < ([[0, 0], [1, 1], [2, 2]] : List (List ℚ)).length, ∀ i < j,
        tAt [[0, 0], [1, 1], [2, 2]] i < tAt [[0, 0], [1, 1], [2, 2]] j)) ∧
    median_avg [[0, 0], [1, 1], [2, 2]] [[5], [6], [7]] 0 1 0 = vAt [[5], [6], [7]] 1 0 :=
  ⟨⟨by decide, by decide, by decide, by decide⟩,
    c6_median_window_zero_is_point_read [[0, 0], [1, 1], [2, 2]] [[5], [6], [7]] 0 1
      (by decide) (by decide) (by decide) (by decide)⟩

/-! ### Claim C1: append-with-eviction -/

lemma tAt_drop (l : List (List ℚ)) (n i : ℕ) : tAt (l.drop n) i = tAt l (n + i) := by
  simp [tAt, List.getD_eq_getElem?_getD, List.getElem?_drop]

lemma tAt_append_left {l l2 : List (List ℚ)} {i : ℕ} (h : i < l.length) :
    tAt (l ++ l2) i = tAt l i := by
  simp [tAt, List.getD_eq_getElem?_getD, List.getElem?_append_left h]

lemma tAt_concat_length (l : List (List ℚ)) (r : List ℚ) :
    tAt (l ++ [r]) l.length = tOf r := by
  simp [tAt, List.getD_eq_getElem?_getD, List.getElem?_concat_length]

lemma stepAppend_eq (bufsize : ℚ) (s : RingState) (recno wavetime : ℚ)
    (record : List ℚ) :
    stepAppend bufsize s recno wavetime record =
      if wavetime - tAt (s.bufidx ++ [[recno, wavetime]]) 0 > bufsize
      then ⟨(s.bufidx ++ [[recno, wavetime]]).drop 1, (s.bufadc ++ [record]).drop 1⟩
      else ⟨s.bufidx ++ [[recno, wavetime]], s.bufadc ++ [record]⟩ := by
  have hne : s.bufidx ++ [[recno, wavetime]] ≠ [] := by simp
  have hlast : tOf ((s.bufidx ++ [[recno, wavetime]]).getLastD []) = wavetime := by
    rw [getLastD_eq_getD]
    have hl : (s.bufidx ++ [[recno, wavetime]]).length - 1 = s.bufidx.length := by simp
    rw [show tOf ((s.bufidx ++ [[recno, wavetime]]).getD
        ((s.bufidx ++ [[recno, wavetime]]).length - 1) []) =
        tAt (s.bufidx ++ [[recno, wavetime]])
          ((s.bufidx ++ [[recno, wavetime]]).length - 1) from rfl, hl,
      tAt_concat_length]
    rfl
  have hhead : tOf (s.bufidx ++ [[recno, wavetime]]).headI =
      tAt (s.bufidx ++ [[recno, wavetime]]) 0 := by
    rw [headI_eq_getD hne]
    rfl
  unfold stepAppend
  simp only [hlast, hhead]

/-- C1 counterexample: the bound `t_last − t_first ≤ bufsize` does not
hold for every reachable ring state.  With `bufsize = 10`, appending
samples at times `0`, `1`, `20` reaches (after the single eviction the
third step performs) the ring `[[1,1],[2,20]]`, whose span `19` exceeds
the window. -/
theorem c1_span_bound_fails_on_reachable_state :
    Reachable 10 (stepAppend 10 (stepAppend 10 (stepAppend 10 ⟨[], []⟩ 0 0 [])
        1 1 []) 2 20 []) ∧
    ringSpan (stepAppend 10 (stepAppend 10 (stepAppend 10 ⟨[], []⟩ 0 0 [])
        1 1 []) 2 20 []) > 10 := by
  have h1 : stepAppend 10 ⟨[], []⟩ 0 0 [] = ⟨[[0, 0]], [[]]⟩ := by
    rw [stepAppend_eq]
    norm_num [tAt, tOf]
  have h2 : stepAppend 10 (⟨[[0, 0]], [[]]⟩ : RingState) 1 1 [] =
      ⟨[[0, 0], [1, 1]], [[], []]⟩ := by
    rw [stepAppend_eq]
    norm_num [tAt, tOf]
  have h3 : stepAppend 10 (⟨[[0, 0], [1, 1]], [[], []]⟩ : RingState) 2 20 [] =
      ⟨[[1, 1], [2, 20]], [[], []]⟩ := by
    rw [stepAppend_eq]
    norm_num [tAt, tOf]
  constructor
  · exact .step 2 20 [] (.step 1 1 [] (.step 0 0 [] .init))
  · rw [h1, h2, h3]
    norm_num [ringSpan, tAt, tOf]

/-- C1 amended: the append-with-eviction step evicts the oldest record
exactly when the appended ring's span `t_last − t_first` exceeds
`bufsize` (at most one record per append, so the step keeps the ring
length unchanged exactly on overflow), and the bound
`t_last − t_first ≤ bufsize` holds after the step provided the new
sample's timestamp exceeds the second timestamp of the appended ring by
at most `bufsize`; it is not an unconditional invariant of reachable
states. -/
theorem c1_append_evict_amended (bufsize : ℚ) (s : RingState)
    (recno wavetime : ℚ) (record : List ℚ) (hB : 0 ≤ bufsize)
    (hgap : wavetime - tAt (s.bufidx ++ [[recno, wavetime]]) 1 ≤ bufsize) :
    ((stepAppend bufsize s recno wavetime record).bufidx.length = s.bufidx.length ↔
      ringSpan ⟨s.bufidx ++ [[recno, wavetime]], s.bufadc ++ [record]⟩ > bufsize) ∧
    ringSpan (stepAppend bufsize s recno wavetime record) ≤ bufsize := by
  have hbilen : (s.bufidx ++ [[recno, wavetime]]).length = s.bufidx.length + 1 := by
    simp
  have hlastt : tAt (s.bufidx ++ [[recno, wavetime]]) s.bufidx.length = wavetime := by
    rw [tAt_concat_length]
    rfl
  have hspanApp : ringSpan ⟨s.bufidx ++ [[recno, wavetime]], s.bufadc ++ [record]⟩ =
      wavetime - tAt (s.bufidx ++ [[recno, wavetime]]) 0 := by
    unfold ringSpan
    rw [show (RingState.mk (s.bufidx ++ [[recno, wavetime]])
        (s.bufadc ++ [record])).bufidx = s.bufidx ++ [[recno, wavetime]] from rfl,
      hbilen, show s.bufidx.length + 1 - 1 = s.bufidx.length by omega, hlastt]
  rw [stepAppend_eq]
  by_cases hc : wavetime - tAt (s.bufidx ++ [[recno, wavetime]]) 0 > bufsize
  · rw [if_pos hc]
    have hsne : s.bufidx ≠ [] := by
      intro he
      rw [he] at hc
      have h0 : tAt ([] ++ [[recno, wavetime]] : List (List ℚ)) 0 = wavetime := by
        have h00 := tAt_concat_length ([] : List (List ℚ)) [recno, wavetime]
        simpa using h00
      rw [h0] at hc
      simp at hc
      exact absurd hB (not_le.mpr hc)
    have hslen : 0 < s.bufidx.length := length_pos_of_ne hsne
    constructor
    · simp only [List.length_drop, hbilen, hspanApp]
      constructor
      · intro _
        exact hc
      · intro _
        omega
    · unfold ringSpan
      simp only [List.length_drop, hbilen]
      rw [tAt_drop, tAt_drop]
      have e1 : 1 + (s.bufidx.length + 1 - 1 - 1) = s.bufidx.length := by omega
      have e2 : (1 : ℕ) + 0 = 1 := by omega
      rw [e1, e2, hlastt]
      exact hgap
  · rw [if_neg hc]
    constructor
    · simp only [hbilen, hspanApp]
      constructor
      · intro h
        omega
      · intro h
        exact absurd h hc
    · rw [← hspanApp] at hc
      exact not_lt.mp hc

theorem c1_append_evict_amended_witness :
    ((0 : ℚ) ≤ 10 ∧
      (5 : ℚ) - tAt ((⟨[[0, 0], [1, 1]], [[5], [6]]⟩ : RingState).bufidx ++ [[2, 5]]) 1 ≤ 10) ∧
    (((stepAppend 10 ⟨[[0, 0], [1, 1]], [[5], [6]]⟩ 2 5 [7]).bufidx.length =
        (⟨[[0, 0], [1, 1]], [[5], [6]]⟩ : RingState).bufidx.length ↔
      ringSpan ⟨(⟨[[0, 0], [1, 1]], [[5], [6]]⟩ : RingState).bufidx ++ [[2, 5]],
        (⟨[[0, 0], [1, 1]], [[5], [6]]⟩ : RingState).bufadc ++ [[7]]⟩ > 10) ∧
      ringSpan (stepAppend 10 ⟨[[0, 0], [1, 1]], [[5], [6]]⟩ 2 5 [7]) ≤ 10) :=
  ⟨⟨by norm_num, by norm_num [tAt, tOf]⟩,
    c1_append_evict_amended 10 ⟨[[0, 0], [1, 1]], [[5], [6]]⟩ 2 5 [7]
      (by norm_num) (by norm_num [tAt, tOf])⟩

/-! ### Claim C2: `:CMD:TIME:RST` -/

/-- C2: for every well-formed ring and every offset `Δ` returned by the
DAQ worker for a `:CMD:TIME:RST` request, the handler rewrites every
buffered timestamp to `t_old − Δ`, leaves every `seq` field and the
whole value buffer `bufadc` unchanged, and replies to the client with
exactly the worker's returned value. -/
theorem c2_time_rst_shifts_all_timestamps (bufidx bufadc : List (List ℚ))
    (Δ : ℚ) (hwf : WF bufidx) :
    (cmdTimeRst bufidx bufadc Δ).bufidx.length = bufidx.length ∧
    (∀ i < bufidx.length,
      tAt (cmdTimeRst bufidx bufadc Δ).bufidx i = tAt bufidx i - Δ ∧
      seqAt (cmdTimeRst bufidx bufadc Δ).bufidx i = seqAt bufidx i) ∧
    (cmdTimeRst bufidx bufadc Δ).bufadc = bufadc ∧
    (cmdTimeRst bufidx bufadc Δ).reply = Δ := by
  refine ⟨by simp [cmdTimeRst, cmdTimeRstRing], fun i hi => ?_, rfl, rfl⟩
  have hgi : bufidx[i]? = some bufidx[i] := List.getElem?_eq_getElem hi
  have hwfi : 2 ≤ bufidx[i].length := hwf _ (List.getElem_mem hi)
  have hmap : (cmdTimeRst bufidx bufadc Δ).bufidx.getD i [] =
      bufidx[i].set 1 (tOf bufidx[i] - Δ) := by
    show (cmdTimeRstRing bufidx Δ).getD i [] = _
    rw [cmdTimeRstRing, List.getD_eq_getElem?_getD, List.getElem?_map, hgi]
    rfl
  constructor
  · show tOf ((cmdTimeRst bufidx bufadc Δ).bufidx.getD i []) = _
    rw [hmap]
    have hset : (bufidx[i].set 1 (tOf bufidx[i] - Δ))[1]? =
        some (tOf bufidx[i] - Δ) := by
      rw [List.getElem?_set_self']
      rw [List.getElem?_eq_getElem (by omega)]
      rfl
    rw [tOf, List.getD_eq_getElem?_getD, hset]
    rw [show tAt bufidx i = tOf bufidx[i] from by
      rw [tAt, List.getD_eq_getElem?_getD, hgi]
      rfl]
    rfl
  · show seqOf ((cmdTimeRst bufidx bufadc Δ).bufidx.getD i []) = _
    rw [hmap]
    have hset : (bufidx[i].set 1 (tOf bufidx[i] - Δ))[0]? = bufidx[i][0]? :=
      List.getElem?_set_ne (by omega)
    rw [seqOf, List.getD_eq_getElem?_getD, hset]
    rw [show seqAt bufidx i = seqOf bufidx[i] from by
      rw [seqAt, List.getD_eq_getElem?_getD, hgi]
      rfl]
    rw [seqOf, List.getD_eq_getElem?_getD]

theorem c2_time_rst_shifts_all_timestamps_witness :
    WF [[0, 1], [1, 2]] ∧
    ((cmdTimeRst [[0, 1], [1, 2]] [[5], [6]] 3).bufidx.length =
        ([[0, 1], [1, 2]] : List (List ℚ)).length ∧
      (∀ i < ([[0, 1], [1, 2]] : List (List ℚ)).length,
        tAt (cmdTimeRst [[0, 1], [1, 2]] [[5], [6]] 3).bufidx i =
          tAt [[0, 1], [1, 2]] i - 3 ∧
        seqAt (cmdTimeRst [[0, 1], [1, 2]] [[5], [6]] 3).bufidx i =
          seqAt [[0, 1], [1, 2]] i) ∧
      (cmdTimeRst [[0, 1], [1, 2]] [[5], [6]] 3).bufadc = [[5], [6]] ∧
      (cmdTimeRst [[0, 1], [1, 2]] [[5], [6]] 3).reply = 3) :=
  ⟨by decide, c2_time_rst_shifts_all_timestamps [[0, 1], [1, 2]] [[5], [6]] 3 (by decide)⟩

/-! ### Claims C8 and C10 -/

/-- C8 counterexample: on slot exhaustion the handler sends nothing to
the client before closing — in particular it does not reply `ERR` as
claimed: the rejection arm (`daq_server.py:1365-1370`) only logs and
closes. -/
theorem c8_no_err_reply_on_slot_exhaustion :
    cmdHandlerAccept [] =
      ⟨false, none, [], true, true⟩ ∧
    ¬ ("ERR" ∈ (cmdHandlerAccept []).sent) := by
  constructor
  · rfl
  · intro h
    simp [cmdHandlerAccept] at h

/-- C8 amended: when no response slot is free the handler logs the
rejection on the error queue and closes the connection without sending
any reply; no command from that connection is forwarded to the DAQ
worker (the serve loop is never entered).  A connection is served
exactly when the free list is non-empty. -/
theorem c8_slot_exhaustion_rejects_silently :
    (cmdHandlerAccept []).accepted = false ∧
    (cmdHandlerAccept []).slot = none ∧
    (cmdHandlerAccept []).sent = [] ∧
    (cmdHandlerAccept []).loggedError = true ∧
    (cmdHandlerAccept []).closed = true ∧
    ∀ freeQn : List ℕ, ((cmdHandlerAccept freeQn).accepted = false ↔ freeQn = []) := by
  refine ⟨rfl, rfl, rfl, rfl, rfl, fun freeQn => ?_⟩
  unfold cmdHandlerAccept
  by_cases h : freeQn.length ≠ 0
  · rw [if_pos h]
    simp only
    constructor
    · intro hc
      exact absurd hc (by simp)
    · intro hc
      exact absurd (by simp [hc]) h
  · rw [if_neg h]
    simp only
    constructor
    · intro _
      exact List.length_eq_zero.mp (by omega)
    · intro _
      trivial

/-- C10: a `:DATA:READ?` with no time argument does not reply `ERR` on a
non-empty ring: the slice defaults to `[len-1 : len]`, so exactly the
newest record is emitted as one line, followed by the trailing `OK`. -/
theorem c10_data_read_no_args_defaults_to_newest
    (bufidx bufadc : List (List ℚ)) (hne : bufidx ≠ [])
    (hlen : bufadc.length = bufidx.length) :
    dataReadEmits bufidx bufadc none =
      [Emit.line (tAt bufidx (bufidx.length - 1))
        (bufadc.getD (bufadc.length - 1) []), Emit.ok] := by
  have hp : 0 < bufidx.length := length_pos_of_ne hne
  have hsl : ∀ l : List (List ℚ), l.length = bufidx.length →
      pySlice l ((bufidx.length : ℤ) - 1) (bufidx.length : ℤ) =
        [l.getD (l.length - 1) []] := by
    intro l hl
    unfold pySlice pyIdx
    rw [hl]
    have e0 : ¬ ((bufidx.length : ℤ) - 1 < 0) := by omega
    have e1 : ¬ ((bufidx.length : ℤ) < 0) := by omega
    rw [if_neg e0, if_neg e1]
    have e2 : (min (max ((bufidx.length : ℤ) - 1) 0) (bufidx.length : ℤ)).toNat =
        bufidx.length - 1 := by omega
    have e3 : (min (max (bufidx.length : ℤ) 0) (bufidx.length : ℤ)).toNat =
        bufidx.length := by omega
    rw [e2, e3, ← hl, List.take_length]
    have hll : l.length - 1 < l.length := by omega
    rw [List.drop_eq_getElem_cons hll]
    rw [show l.length - 1 + 1 = l.length by omega, List.drop_length]
    rw [List.getD_eq_getElem?_getD, List.getElem?_eq_getElem hll]
    rfl
  show ((pySlice bufidx ((bufidx.length : ℤ) - 1) (bufidx.length : ℤ)).zip
      (pySlice bufadc ((bufidx.length : ℤ) - 1) (bufidx.length : ℤ))).map
      (fun ir => Emit.line (tOf ir.1) ir.2) ++ [Emit.ok] = _
  rw [hsl bufidx rfl, hsl bufadc hlen]
  rw [show bufidx.getD (bufidx.length - 1) [] = bufidx.getD (bufidx.length - 1) []
    from rfl]
  rfl

theorem c10_data_read_no_args_defaults_to_newest_witness :
    (([[0, 1], [1, 2]] : List (List ℚ)) ≠ [] ∧
      ([[5], [6]] : List (List ℚ)).length = ([[0, 1], [1, 2]] : List (List ℚ)).length) ∧
    dataReadEmits [[0, 1], [1, 2]] [[5], [6]] none =
      [Emit.line (tAt [[0, 1], [1, 2]] (([[0, 1], [1, 2]] : List (List ℚ)).length - 1))
        (([[5], [6]] : List (List ℚ)).getD (([[5], [6]] : List (List ℚ)).length - 1) []),
       Emit.ok] :=
  ⟨⟨by decide, by decide⟩,
    c10_data_read_no_args_defaults_to_newest [[0, 1], [1, 2]] [[5], [6]]
      (by decide) (by decide)⟩

/-! ### Claim C4: `:DATA:READ? a, b` -/

lemma pySlice_natCast (l : List α) (a b : ℕ) :
    pySlice l (a : ℤ) (b : ℤ) = (l.take b).drop a := by
  unfold pySlice pyIdx
  have e0 : ¬ ((a : ℤ) < 0) := by omega
  have e1 : ¬ ((b : ℤ) < 0) := by omega
  rw [if_neg e0, if_neg e1]
  have e2 : (min (max (b : ℤ) 0) (l.length : ℤ)).toNat = min b l.length := by omega
  have e3 : (min (max (a : ℤ) 0) (l.length : ℤ)).toNat = min a l.length := by omega
  rw [e2, e3]
  have h1 : l.take (min b l.length) = l.take b := by
    rcases le_total b l.length with h | h
    · rw [min_eq_left h]
    · rw [min_eq_right h, List.take_length, List.take_of_length_le h]
  rw [h1]
  have hK : (l.take b).length ≤ l.length := by
    rw [List.length_take]
    omega
  rcases le_total a l.length with h | h
  · rw [min_eq_left h]
  · rw [min_eq_right h, List.drop_eq_nil_of_le hK,
      List.drop_eq_nil_of_le (le_trans hK h)]

lemma emits_two_args (bufidx bufadc : List (List ℚ)) (a b : ℚ) :
    dataReadEmits bufidx bufadc (some (a, some b)) =
      (((bufidx.take (findTimeIndex bufidx b + 1)).drop (findTimeIndex bufidx a)).zip
        ((bufadc.take (findTimeIndex bufidx b + 1)).drop (findTimeIndex bufidx a))).map
        (fun ir => Emit.line (tOf ir.1) ir.2) ++ [Emit.ok] := by
  show ((pySlice bufidx (findTimeIndex bufidx a : ℤ)
        ((findTimeIndex bufidx b : ℤ) + 1)).zip
      (pySlice bufadc (findTimeIndex bufidx a : ℤ)
        ((findTimeIndex bufidx b : ℤ) + 1))).map
      (fun ir => Emit.line (tOf ir.1) ir.2) ++ [Emit.ok] = _
  rw [show ((findTimeIndex bufidx b : ℤ) + 1) =
      ((findTimeIndex bufidx b + 1 : ℕ) : ℤ) by push_cast; ring]
  rw [pySlice_natCast, pySlice_natCast]

/-- C4 counterexample: with the strictly increasing ring
`t = [1, 2, 4]` and the request `:DATA:READ? 1, 3`, the record at
`t = 4 ∉ [1, 3]` is also emitted, refuting "no other records outside
`[a, b]` are emitted". -/
theorem c4_emits_record_outside_range :
    (∀ j < ([[0, 1], [1, 2], [2, 4]] : List (List ℚ)).length, ∀ i ≤ j,
      tAt [[0, 1], [1, 2], [2, 4]] i ≤ tAt [[0, 1], [1, 2], [2, 4]] j) ∧
    dataReadEmits [[0, 1], [1, 2], [2, 4]] [[5], [6], [7]] (some (1, some 3)) =
      [Emit.line 1 [5], Emit.line 2 [6], Emit.line 4 [7], Emit.ok] ∧
    Emit.line 4 [7] ∈
      dataReadEmits [[0, 1], [1, 2], [2, 4]] [[5], [6], [7]] (some (1, some 3)) ∧
    ¬ ((4 : ℚ) ≤ 3) :=
  ⟨by decide, by rfl, by decide, by norm_num⟩

/-- C4 amended: for a non-empty well-formed ring with strictly
increasing timestamps and `t_first ≤ a ≤ b ≤ t_last`, the handler emits
exactly the contiguous ring slice from the smallest index with `t ≥ a`
through the smallest index with `t ≥ b`, in ring (hence increasing `t`
and `seq`) order, each record once, with `OK` as the last emission;
every record with `a ≤ t ≤ b` lies in that slice, no emitted record has
`t < a`, and every emitted record except possibly the final one (the
first record with `t ≥ b`) has `t < b`. -/
theorem c4_data_read_two_args_amended (bufidx bufadc : List (List ℚ)) (a b : ℚ)
    (hwf : WF bufidx) (hne : bufidx ≠ [])
    (hlen : bufadc.length = bufidx.length)
    (hmono : ∀ j < bufidx.length, ∀ i < j, tAt bufidx i < tAt bufidx j)
    (ha : tAt bufidx 0 ≤ a) (hab : a ≤ b)
    (hb : b ≤ tAt bufidx (bufidx.length - 1)) :
    ((dataReadEmits bufidx bufadc (some (a, some b))).length =
        (findTimeIndex bufidx b + 1 - findTimeIndex bufidx a) + 1) ∧
    (∀ k < findTimeIndex bufidx b + 1 - findTimeIndex bufidx a,
      (dataReadEmits bufidx bufadc (some (a, some b))).getD k Emit.ok =
        Emit.line (tAt bufidx (findTimeIndex bufidx a + k))
          (bufadc.getD (findTimeIndex bufidx a + k) [])) ∧
    ((dataReadEmits bufidx bufadc (some (a, some b))).getLastD Emit.ok = Emit.ok) ∧
    (∀ i < bufidx.length, a ≤ tAt bufidx i → tAt bufidx i ≤ b →
      findTimeIndex bufidx a ≤ i ∧ i ≤ findTimeIndex bufidx b) ∧
    (∀ i, findTimeIndex bufidx a ≤ i → i ≤ findTimeIndex bufidx b →
      i < bufidx.length ∧ a ≤ tAt bufidx i) ∧
    (∀ i < findTimeIndex bufidx b, tAt bufidx i < b) := by
  have hn : 0 < bufidx.length := length_pos_of_ne hne
  have hmle : ∀ i j, i ≤ j → j < bufidx.length → tAt bufidx i ≤ tAt bufidx j := by
    intro i j hij hj
    rcases Nat.lt_or_ge i j with h | h
    · exact le_of_lt (hmono j hj i h)
    · rw [show i = j by omega]
  obtain ⟨hp0lt, hp0t, hp0min⟩ :=
    fti_range hwf hne ha (le_trans hab hb)
  obtain ⟨hp1lt, hp1t, hp1min⟩ :=
    fti_range hwf hne (le_trans ha hab) hb
  have hp01 : findTimeIndex bufidx a ≤ findTimeIndex bufidx b := by
    by_contra hc
    exact absurd hp1t (not_le.mpr (lt_of_lt_of_le (hp0min _ (by omega)) hab))
  have hslen : ∀ l : List (List ℚ), l.length = bufidx.length →
      ((l.take (findTimeIndex bufidx b + 1)).drop (findTimeIndex bufidx a)).length =
        findTimeIndex bufidx b + 1 - findTimeIndex bufidx a := by
    intro l hl
    rw [List.length_drop, List.length_take, hl]
    omega
  have hsget : ∀ (l : List (List ℚ)) (hl : l.length = bufidx.length)
      (k : ℕ) (hk : k < findTimeIndex bufidx b + 1 - findTimeIndex bufidx a),
      ((l.take (findTimeIndex bufidx b + 1)).drop (findTimeIndex bufidx a))[k]? =
        some (l.getD (findTimeIndex bufidx a + k) []) := by
    intro l hl k hk
    rw [List.getElem?_drop, List.getElem?_take, if_pos (by omega)]
    rw [List.getElem?_eq_getElem (by omega), List.getD_eq_getElem?_getD,
      List.getElem?_eq_getElem (by omega)]
    rfl
  refine ⟨?_, ?_, ?_, ?_, ?_, fun i hi => hp1min i hi⟩
  · rw [emits_two_args, List.length_append, List.length_map,
      List.length_zip, hslen bufidx rfl, hslen bufadc hlen]
    simp
  · intro k hk
    have hz : (((bufidx.take (findTimeIndex bufidx b + 1)).drop
          (findTimeIndex bufidx a)).zip
        ((bufadc.take (findTimeIndex bufidx b + 1)).drop
          (findTimeIndex bufidx a)))[k]? =
        some (bufidx.getD (findTimeIndex bufidx a + k) [],
          bufadc.getD (findTimeIndex bufidx a + k) []) :=
      List.getElem?_zip_eq_some.mpr ⟨hsget bufidx rfl k hk, hsget bufadc hlen k hk⟩
    rw [emits_two_args, List.getD_eq_getElem?_getD,
      List.getElem?_append_left (by
        rw [List.length_map, List.length_zip, hslen bufidx rfl, hslen bufadc hlen]
        omega),
      List.getElem?_map, hz]
    show Emit.line (tOf (bufidx.getD (findTimeIndex bufidx a + k) [])) _ = _
    rfl
  · rw [emits_two_args]
    simp
  · intro i hilen hai hib
    constructor
    · by_contra hc
      exact absurd hai (not_le.mpr (hp0min i (by omega)))
    · by_contra hc
      have h1 : tAt bufidx (findTimeIndex bufidx b) < tAt bufidx i :=
        hmono i hilen _ (by omega)
      exact absurd hib (not_le.mpr (lt_of_le_of_lt hp1t h1))
  · intro i h0i hi1
    have hilen : i < bufidx.length := by omega
    exact ⟨hilen, le_trans hp0t (hmle _ _ h0i hilen)⟩

theorem c4_data_read_two_args_amended_witness :
    (WF [[0, 1], [1, 2], [2, 4]] ∧
      ([[0, 1], [1, 2], [2, 4]] : List (List ℚ)) ≠ [] ∧
      ([[5], [6], [7]] : List (List ℚ)).length =
        ([[0, 1], [1, 2], [2, 4]] : List (List ℚ)).length ∧
      (∀ j < ([[0, 1], [1, 2], [2, 4]] : List (List ℚ)).length, ∀ i < j,
        tAt [[0, 1], [1, 2], [2, 4]] i < tAt [[0, 1], [1, 2], [2, 4]] j) ∧
      tAt [[0, 1], [1, 2], [2, 4]] 0 ≤ (1 : ℚ) ∧ (1 : ℚ) ≤ 3 ∧
      (3 : ℚ) ≤ tAt [[0, 1], [1, 2], [2, 4]]
        (([[0, 1], [1, 2], [2, 4]] : List (List ℚ)).length - 1)) ∧
    ((dataReadEmits [[0, 1], [1, 2], [2, 4]] [[5], [6], [7]] (some (1, some 3))).length =
      (findTimeIndex [[0, 1], [1, 2], [2, 4]] 3 + 1 -
        findTimeIndex [[0, 1], [1, 2], [2, 4]] 1) + 1) :=
  ⟨⟨by decide, by decide, by decide, by decide, by decide, by norm_num, by decide⟩,
    (c4_data_read_two_args_amended [[0, 1], [1, 2], [2, 4]] [[5], [6], [7]] 1 3
      (by decide) (by decide) (by decide) (by decide) (by decide) (by norm_num)
      (by decide)).1⟩

/-! ### Claim C5: `:CMD:PEAK?` -/

lemma plateauEnd_ge (y : List ℚ) (v : ℚ) : ∀ fuel k, k ≤ plateauEnd y v k fuel := by
  intro fuel
  induction fuel with
  | zero =>
      intro k
      exact le_rfl
  | succ f ih =>
      intro k
      rw [plateauEnd]
      by_cases h : k < y.length - 1 ∧ yAt y k = v
      · rw [if_pos h]
        exact le_trans (by omega) (ih (k + 1))
      · rw [if_neg h]

lemma plateauEnd_le (y : List ℚ) (v : ℚ) :
    ∀ fuel k, k ≤ y.length - 1 → plateauEnd y v k fuel ≤ y.length - 1 := by
  intro fuel
  induction fuel with
  | zero =>
      intro k hk
      exact hk
  | succ f ih =>
      intro k hk
      rw [plateauEnd]
      by_cases h : k < y.length - 1 ∧ yAt y k = v
      · rw [if_pos h]
        exact ih (k + 1) (by omega)
      · rw [if_neg h]
        exact hk

lemma lmGo_nil_of_nondecr {y : List ℚ}
    (hm : ∀ i j, i ≤ j → j < y.length → yAt y i ≤ yAt y j) :
    ∀ fuel i, 1 ≤ i → lmGo y i fuel = [] := by
  intro fuel
  induction fuel with
  | zero =>
      intro i _
      rfl
  | succ f ih =>
      intro i hi
      rw [lmGo]
      by_cases hlt : i < y.length - 1
      · rw [if_pos hlt]
        by_cases hrise : yAt y (i - 1) < yAt y i
        · rw [if_pos hrise]
          have hge := plateauEnd_ge y (yAt y i) y.length (i + 1)
          have hle := plateauEnd_le y (yAt y i) y.length (i + 1) (by omega)
          have hmono := hm i (plateauEnd y (yAt y i) (i + 1) y.length)
            (by omega) (by omega)
          rw [if_neg (not_lt.mpr hmono)]
          exact ih _ (by omega)
        · rw [if_neg hrise]
          exact ih _ (by omega)
      · rw [if_neg hlt]

lemma lmGo_nil_of_nonincr {y : List ℚ}
    (hm : ∀ i j, i ≤ j → j < y.length → yAt y j ≤ yAt y i) :
    ∀ fuel i, 1 ≤ i → lmGo y i fuel = [] := by
  intro fuel
  induction fuel with
  | zero =>
      intro i _
      rfl
  | succ f ih =>
      intro i hi
      rw [lmGo]
      by_cases hlt : i < y.length - 1
      · rw [if_pos hlt]
        have hfall : yAt y i ≤ yAt y (i - 1) := hm (i - 1) i (by omega) (by omega)
        rw [if_neg (not_lt.mpr hfall)]
        exact ih _ (by omega)
      · rw [if_neg hlt]

/-- A monotone (either direction) array has no interior local maximum:
scipy's `_local_maxima_1d` returns the empty index set. -/
lemma localMaxima_nil_of_mono {y : List ℚ}
    (hm : (∀ i j, i ≤ j → j < y.length → yAt y i ≤ yAt y j) ∨
      (∀ i j, i ≤ j → j < y.length → yAt y j ≤ yAt y i)) :
    localMaxima y = [] := by
  rcases hm with h | h
  · exact lmGo_nil_of_nondecr h y.length 1 le_rfl
  · exact lmGo_nil_of_nonincr h y.length 1 le_rfl

lemma findPeaks_nil {y : List ℚ} (b0 dist : ℚ) (h : localMaxima y = []) :
    findPeaks y b0 dist = [] := by
  unfold findPeaks heightFilter
  rw [h]
  rfl

lemma peakResolve_err_of_nil {x y : List ℚ} {b0 dist : ℚ}
    (h : findPeaks y b0 dist = []) : peakResolve x y b0 dist = .err := by
  unfold peakResolve
  rw [h]
  rfl

lemma slice_map_val (l : List (List ℚ)) (f : List ℚ → ℚ) (a b k : ℕ)
    (hk : k < (((l.take b).drop a).map f).length) :
    yAt (((l.take b).drop a).map f) k = f (l.getD (a + k) []) := by
  have hk2 : k < min b l.length - a := by
    rw [List.length_map, List.length_drop, List.length_take] at hk
    omega
  have hlen : a + k < l.length := by omega
  have hkb : a + k < b := by omega
  rw [yAt, List.getD_eq_getElem?_getD, List.getElem?_map, List.getElem?_drop,
    List.getElem?_take, if_pos hkb, List.getElem?_eq_getElem hlen,
    List.getD_eq_getElem?_getD, List.getElem?_eq_getElem hlen]
  rfl

lemma slice_map_len (l : List (List ℚ)) (f : List ℚ → ℚ) (a b : ℕ) :
    (((l.take b).drop a).map f).length = min b l.length - a := by
  rw [List.length_map, List.length_drop, List.length_take]

/-- C5: the `:CMD:PEAK?` handler computes the pipeline the specification
describes — clamp `[t0, t0+interval]` to the ring, look up the window
indices, search the converted values for local maxima with minimum
height `median+1e-3` and minimum spacing `(p1-p0)/2`, run the
running-maximum scan with the `1e-3` early-stop, and reply
`pktim,pkval` only above the threshold — and on a channel whose
converted values are monotone over the ring (no qualifying local
maximum) the reply is `ERR`. -/
theorem c5_peak_pipeline_and_monotone_err (bufidx bufadc : List (List ℚ))
    (val : ℚ → ℚ) (s : ℕ) (t0 interval : ℚ) :
    cmdPeak bufidx bufadc val s t0 interval =
      peakSpec bufidx bufadc val s t0 interval ∧
    (((∀ j < bufadc.length, ∀ i ≤ j,
        val (vAt bufadc i s) ≤ val (vAt bufadc j s)) ∨
      (∀ j < bufadc.length, ∀ i ≤ j,
        val (vAt bufadc j s) ≤ val (vAt bufadc i s))) →
      cmdPeak bufidx bufadc val s t0 interval = .err) := by
  constructor
  · have hlo : (if t0 < tAt bufidx 0 then tAt bufidx 0 else t0) =
        max t0 (tAt bufidx 0) := by
      rcases lt_or_ge t0 (tAt bufidx 0) with h | h
      · rw [if_pos h, max_eq_right (le_of_lt h)]
      · rw [if_neg (not_lt.mpr h), max_eq_left h]
    have hhi : (if t0 + interval > tAt bufidx (bufidx.length - 1)
        then tAt bufidx (bufidx.length - 1) else t0 + interval) =
        min (t0 + interval) (tAt bufidx (bufidx.length - 1)) := by
      rcases lt_or_ge (tAt bufidx (bufidx.length - 1)) (t0 + interval) with h | h
      · rw [if_pos h, min_eq_right (le_of_lt h)]
      · rw [if_neg (not_lt.mpr h), min_eq_left h]
    unfold cmdPeak peakSpec
    by_cases hemp : bufidx.isEmpty
    · rw [if_pos hemp, if_pos hemp]
    · rw [if_neg hemp, if_neg hemp]
      show peakReplyAt bufidx bufadc val s
          (findTimeIndex bufidx (if t0 < tAt bufidx 0 then tAt bufidx 0 else t0))
          (findTimeIndex bufidx (if t0 + interval > tAt bufidx (bufidx.length - 1)
            then tAt bufidx (bufidx.length - 1) else t0 + interval)) = _
      rw [hlo, hhi]
  · intro hm
    have key : ∀ p0 p1 : ℕ, peakReplyAt bufidx bufadc val s p0 p1 = .err := by
      intro p0 p1
      unfold peakReplyAt
      by_cases hd : ((p1 : ℚ) - (p0 : ℚ)) / 2 < 1
      · rw [if_pos hd]
      · rw [if_neg hd]
        apply peakResolve_err_of_nil
        apply findPeaks_nil
        apply localMaxima_nil_of_mono
        rw [show ((p0 : ℤ)) = ((p0 : ℕ) : ℤ) from rfl,
          show ((p1 : ℤ) + 1) = ((p1 + 1 : ℕ) : ℤ) by push_cast; ring,
          pySlice_natCast bufadc p0 (p1 + 1)]
        rcases hm with h | h
        · left
          intro i j hij hj
          have hj2 : p0 + j < bufadc.length := by
            have := slice_map_len bufadc (fun r => val (r.getD s 0)) p0 (p1 + 1)
            omega
          rw [slice_map_val _ _ _ _ _ (by omega), slice_map_val _ _ _ _ _ hj]
          exact h (p0 + j) hj2 (p0 + i) (by omega)
        · right
          intro i j hij hj
          have hj2 : p0 + j < bufadc.length := by
            have := slice_map_len bufadc (fun r => val (r.getD s 0)) p0 (p1 + 1)
            omega
          rw [slice_map_val _ _ _ _ _ hj, slice_map_val _ _ _ _ _ (by omega)]
          exact h (p0 + j) hj2 (p0 + i) (by omega)
    unfold cmdPeak
    by_cases hemp : bufidx.isEmpty
    · rw [if_pos hemp]
    · rw [if_neg hemp]
      exact key _ _

theorem c5_peak_pipeline_and_monotone_err_witness :
    ((∀ j < ([[1], [2], [3], [4], [5]] : List (List ℚ)).length, ∀ i ≤ j,
        id (vAt [[1], [2], [3], [4], [5]] i 0) ≤ id (vAt [[1], [2], [3], [4], [5]] j 0)) ∨
      (∀ j < ([[1], [2], [3], [4], [5]] : List (List ℚ)).length, ∀ i ≤ j,
        id (vAt [[1], [2], [3], [4], [5]] j 0) ≤ id (vAt [[1], [2], [3], [4], [5]] i 0))) ∧
    cmdPeak [[0, 0], [1, 1], [2, 2], [3, 3], [4, 4]] [[1], [2], [3], [4], [5]]
      id 0 0 4 = PeakReply.err :=
  ⟨Or.inl (by decide),
    (c5_peak_pipeline_and_monotone_err [[0, 0], [1, 1], [2, 2], [3, 3], [4, 4]]
      [[1], [2], [3], [4], [5]] id 0 0 4).2 (Or.inl (by decide))⟩

/-! ### Claim C7: calibration curves and `calc_ppm` -/

lemma polyval_deg1 (m c x : ℚ) : polyval [m, c] x = m * x + c := by
  show (0 * x + m) * x + c = m * x + c
  ring

lemma polyval_deg2 (a b c x : ℚ) : polyval [a, b, c] x = a * x ^ 2 + b * x + c := by
  show ((0 * x + a) * x + b) * x + c = a * x ^ 2 + b * x + c
  ring

/-- The degree-2 least-squares fit on three points with pairwise
distinct abscissae interpolates all three points. -/
lemma polyfit2_interp (x0 x1 x2 y0 y1 y2 : ℚ)
    (h01 : x0 ≠ x1) (h02 : x0 ≠ x2) (h12 : x1 ≠ x2) :
    polyval (polyfit2 x0 x1 x2 y0 y1 y2) x0 = y0 ∧
    polyval (polyfit2 x0 x1 x2 y0 y1 y2) x1 = y1 ∧
    polyval (polyfit2 x0 x1 x2 y0 y1 y2) x2 = y2 := by
  have d01 : x0 - x1 ≠ 0 := sub_ne_zero.mpr h01
  have d02 : x0 - x2 ≠ 0 := sub_ne_zero.mpr h02
  have d12 : x1 - x2 ≠ 0 := sub_ne_zero.mpr h12
  have d10 : x1 - x0 ≠ 0 := sub_ne_zero.mpr (Ne.symm h01)
  have d20 : x2 - x0 ≠ 0 := sub_ne_zero.mpr (Ne.symm h02)
  have d21 : x2 - x1 ≠ 0 := sub_ne_zero.mpr (Ne.symm h12)
  unfold polyfit2
  refine ⟨?_, ?_, ?_⟩ <;> rw [polyval_deg2] <;> field_simp <;> ring

/-- C7: `calc_ppm` composes the three calibration fits exactly as the
specification states — `h2ppm = eval(cellH2→ppmH2, h2adc)`,
`h2adj = eval(ppmH2→tgsADC, h2ppm)`,
`ch4ppm = eval(tgsADC→ppmCH4, (ch4adc + 20e-3) − h2adj)` — where the two
degree-2 fits pass through their three defining points (so they are the
polynomials "through" those points) and the degree-1 fit satisfies the
least-squares normal equations for its three points. -/
theorem c7_calc_ppm_composes_calibration_fits (cal : Calib) (h2adc ch4adc : ℚ)
    (hx : ¬ (cal.cell_h2_50ppm = 0 ∧ cal.cell_h2_100ppm = 0))
    (hu1 : cal.tgs_ch4_50ppm + cal.tgs_comp ≠ 0)
    (hu2 : cal.tgs_ch4_100ppm + cal.tgs_comp ≠ 0)
    (hu12 : cal.tgs_ch4_50ppm + cal.tgs_comp ≠ cal.tgs_ch4_100ppm + cal.tgs_comp) :
    calc_ppm cal h2adc ch4adc =
      (polyval (z_cell_adc2h2 cal) h2adc,
       polyval (z_tgs_adc2ch4 cal)
         ((ch4adc + 20 / 1000) -
           polyval (z_tgs_h2_2adc cal) (polyval (z_cell_adc2h2 cal) h2adc))) ∧
    polyval (z_tgs_h2_2adc cal) 0 = 0 ∧
    polyval (z_tgs_h2_2adc cal) 50 = cal.tgs_h2_50ppm + cal.tgs_comp ∧
    polyval (z_tgs_h2_2adc cal) 100 = cal.tgs_h2_100ppm + cal.tgs_comp ∧
    polyval (z_tgs_adc2ch4 cal) 0 = 0 ∧
    polyval (z_tgs_adc2ch4 cal) (cal.tgs_ch4_50ppm + cal.tgs_comp) = 50 ∧
    polyval (z_tgs_adc2ch4 cal) (cal.tgs_ch4_100ppm + cal.tgs_comp) = 100 ∧
    (polyval (z_cell_adc2h2 cal) 0 - 0) +
      (polyval (z_cell_adc2h2 cal) cal.cell_h2_50ppm - 50) +
      (polyval (z_cell_adc2h2 cal) cal.cell_h2_100ppm - 100) = 0 ∧
    (0 : ℚ) * (polyval (z_cell_adc2h2 cal) 0 - 0) +
      cal.cell_h2_50ppm * (polyval (z_cell_adc2h2 cal) cal.cell_h2_50ppm - 50) +
      cal.cell_h2_100ppm * (polyval (z_cell_adc2h2 cal) cal.cell_h2_100ppm - 100) = 0 := by
  have hd1 : cal.tgs_ch4_50ppm + cal.tgs_comp - (cal.tgs_ch4_100ppm + cal.tgs_comp) ≠ 0 :=
    sub_ne_zero.mpr hu12
  have hD : polyfit1D 0 cal.cell_h2_50ppm cal.cell_h2_100ppm ≠ 0 := by
    unfold polyfit1D
    intro h0
    apply hx
    have hsq : cal.cell_h2_50ppm ^ 2 + cal.cell_h2_100ppm ^ 2 +
        (cal.cell_h2_50ppm - cal.cell_h2_100ppm) ^ 2 = 0 := by
      linear_combination h0
    have h1 : cal.cell_h2_50ppm ^ 2 = 0 := by
      nlinarith [sq_nonneg cal.cell_h2_50ppm, sq_nonneg cal.cell_h2_100ppm,
        sq_nonneg (cal.cell_h2_50ppm - cal.cell_h2_100ppm)]
    have h2 : cal.cell_h2_100ppm ^ 2 = 0 := by
      nlinarith [sq_nonneg cal.cell_h2_50ppm, sq_nonneg cal.cell_h2_100ppm,
        sq_nonneg (cal.cell_h2_50ppm - cal.cell_h2_100ppm)]
    exact ⟨(pow_eq_zero_iff (by norm_num : (2 : ℕ) ≠ 0)).mp h1,
      (pow_eq_zero_iff (by norm_num : (2 : ℕ) ≠ 0)).mp h2⟩
  have hinterp1 := polyfit2_interp 0 50 100 0 (cal.tgs_h2_50ppm + cal.tgs_comp)
    (cal.tgs_h2_100ppm + cal.tgs_comp) (by norm_num) (by norm_num) (by norm_num)
  have hinterp2 := polyfit2_interp 0 (cal.tgs_ch4_50ppm + cal.tgs_comp)
    (cal.tgs_ch4_100ppm + cal.tgs_comp) 0 50 100 (Ne.symm hu1) (Ne.symm hu2) hu12
  refine ⟨rfl, hinterp1.1, hinterp1.2.1, hinterp1.2.2,
    hinterp2.1, hinterp2.2.1, hinterp2.2.2, ?_, ?_⟩
  · unfold z_cell_adc2h2 polyfit1
    rw [polyval_deg1, polyval_deg1, polyval_deg1]
    field_simp
    unfold polyfit1D
    ring
  · unfold z_cell_adc2h2 polyfit1
    rw [polyval_deg1, polyval_deg1, polyval_deg1]
    field_simp
    unfold polyfit1D
    ring

theorem c7_calc_ppm_composes_calibration_fits_witness :
    (¬ ((1 : ℚ) = 0 ∧ (2 : ℚ) = 0) ∧ (2 : ℚ) + 0 ≠ 0 ∧ (5 : ℚ) + 0 ≠ 0 ∧
      (2 : ℚ) + 0 ≠ (5 : ℚ) + 0) ∧
    calc_ppm ⟨1, 2, 1, 3, 2, 5, 0⟩ 1 1 =
      (polyval (z_cell_adc2h2 ⟨1, 2, 1, 3, 2, 5, 0⟩) 1,
       polyval (z_tgs_adc2ch4 ⟨1, 2, 1, 3, 2, 5, 0⟩)
         ((1 + 20 / 1000) -
           polyval (z_tgs_h2_2adc ⟨1, 2, 1, 3, 2, 5, 0⟩)
             (polyval (z_cell_adc2h2 ⟨1, 2, 1, 3, 2, 5, 0⟩) 1))) :=
  ⟨⟨by norm_num, by norm_num, by norm_num, by norm_num⟩,
    (c7_calc_ppm_composes_calibration_fits ⟨1, 2, 1, 3, 2, 5, 0⟩ 1 1
      (by norm_num) (by norm_num) (by norm_num) (by norm_num)).1⟩

end HMC
